import Mathlib

/-!
Verification of the pastila-cli client core.

Shallow embedding of the pastila-cli Go client (`pkg/pastila/service.go`,
`cmd/pastila/main.go`) and proofs about it.

Bytes are modelled as `Nat` (values < 256 where it matters), 64-bit words as
`Nat` reduced modulo `2 ^ 64`, byte strings as `List Nat`, and text as
`String` / `List Char`.  Fallible operations return `Except`.
-/

namespace Pastila

/-- Decidable equality for `Except`, used to evaluate the embedded operations
on concrete inputs. -/
instance {ε α : Type} [DecidableEq ε] [DecidableEq α] : DecidableEq (Except ε α) := fun x y =>
  match x, y with
  | .ok a, .ok b =>
      if h : a = b then .isTrue (by rw [h]) else .isFalse (fun hh => h (Except.ok.inj hh))
  | .error a, .error b =>
      if h : a = b then .isTrue (by rw [h]) else .isFalse (fun hh => h (Except.error.inj hh))
  | .ok _, .error _ => .isFalse (fun hh => Except.noConfusion hh)
  | .error _, .ok _ => .isFalse (fun hh => Except.noConfusion hh)

/-! ## 64-bit words -/

/-- Truncation to a 64-bit machine word. -/
def w64 (n : Nat) : Nat := n % 18446744073709551616

/-- Rotate a 64-bit word left, as performed on Go `uint64` values. -/
def rotl64 (x r : Nat) : Nat := w64 (x <<< r) ||| (x >>> (64 - r))

/-- Little-endian interpretation of a byte list as an unsigned integer. -/
def leWord (bs : List Nat) : Nat := bs.foldr (fun b acc => b + acc * 256) 0

/-- The `n` low-order bytes of `x`, little endian. -/
def leBytes : Nat → Nat → List Nat
  | 0, _ => []
  | n + 1, x => (x % 256) :: leBytes n (x / 256)

/-- The `n` low-order bytes of `x`, big endian (used for the CTR counter block). -/
def beBytes : Nat → Nat → List Nat
  | 0, _ => []
  | n + 1, x => beBytes n (x / 256) ++ [x % 256]

/-! ## SipHash128

The `github.com/frifox/siphash128` dependency used by `Service.Write` is the
ClickHouse variant of SipHash-2-4 with a 128-bit result: zero key, the final
word carries the length in its top byte, the finalization xors `0xff` into
`v2`, and the output is the two words `v0 xor v1` and `v2 xor v3`, little
endian.  This embedding reproduces the repository's own test vector:
`SipHash128 "Hello ClickHouse!"` hex-prints to
`fa052372d3a8a5ee87eda55a42ac2338` (`TestWriteUnencrypted`). -/

structure SipState where
  v0 : Nat
  v1 : Nat
  v2 : Nat
  v3 : Nat

/-- One SipRound. -/
def sipRound (s : SipState) : SipState :=
  let a0 := w64 (s.v0 + s.v1)
  let b1 := rotl64 s.v1 13
  let c1 := b1 ^^^ a0
  let d0 := rotl64 a0 32
  let a2 := w64 (s.v2 + s.v3)
  let b3 := rotl64 s.v3 16
  let c3 := b3 ^^^ a2
  let e0 := w64 (d0 + c3)
  let d3 := rotl64 c3 21
  let e3 := d3 ^^^ e0
  let b2 := w64 (a2 + c1)
  let d1 := rotl64 c1 17
  let e1 := d1 ^^^ b2
  let c2 := rotl64 b2 32
  ⟨e0, e1, c2, e3⟩

/-- Absorb one 64-bit message word: `v3 ^= m`, two SipRounds, `v0 ^= m`. -/
def sipCompress (s : SipState) (m : Nat) : SipState :=
  let s := { s with v3 := s.v3 ^^^ m }
  let s := sipRound (sipRound s)
  { s with v0 := s.v0 ^^^ m }

/-- Absorb all full 8-byte words, returning the final state and the tail. -/
def sipBlocks : SipState → List Nat → SipState × List Nat
  | s, b0 :: b1 :: b2 :: b3 :: b4 :: b5 :: b6 :: b7 :: rest =>
      sipBlocks (sipCompress s (leWord [b0, b1, b2, b3, b4, b5, b6, b7])) rest
  | s, tail => (s, tail)

/-- ClickHouse-style SipHash-2-4 with a 128-bit digest and zero key, the hash
used by `Service.Write` to address stored content. -/
def sipHash128 (data : List Nat) : List Nat :=
  let s0 : SipState :=
    ⟨0x736f6d6570736575, 0x646f72616e646f6d, 0x6c7967656e657261, 0x7465646279746573⟩
  let (s, tail) := sipBlocks s0 data
  let m := leWord tail ||| ((data.length % 256) <<< 56)
  let s := sipCompress s m
  let s := { s with v2 := s.v2 ^^^ 0xff }
  let s := sipRound (sipRound (sipRound (sipRound s)))
  leBytes 8 (s.v0 ^^^ s.v1) ++ leBytes 8 (s.v2 ^^^ s.v3)

/-! ## AES and the zero-IV CTR stream

`Service.Write` and `Service.Read` both build `aes.NewCipher(key)` and run
`cipher.NewCTR(block, iv)` with `iv` all zero over the whole buffer.  The
block cipher below is standard FIPS-197 AES encryption (the only direction
CTR mode uses), validated against the FIPS-197 appendix C vector. -/

/-- The AES S-box. -/
def sbox : List Nat :=
  [0x63, 0x7c, 0x77, 0x7b, 0xf2, 0x6b, 0x6f, 0xc5, 0x30, 0x01, 0x67, 0x2b, 0xfe, 0xd7, 0xab, 0x76,
   0xca, 0x82, 0xc9, 0x7d, 0xfa, 0x59, 0x47, 0xf0, 0xad, 0xd4, 0xa2, 0xaf, 0x9c, 0xa4, 0x72, 0xc0,
   0xb7, 0xfd, 0x93, 0x26, 0x36, 0x3f, 0xf7, 0xcc, 0x34, 0xa5, 0xe5, 0xf1, 0x71, 0xd8, 0x31, 0x15,
   0x04, 0xc7, 0x23, 0xc3, 0x18, 0x96, 0x05, 0x9a, 0x07, 0x12, 0x80, 0xe2, 0xeb, 0x27, 0xb2, 0x75,
   0x09, 0x83, 0x2c, 0x1a, 0x1b, 0x6e, 0x5a, 0xa0, 0x52, 0x3b, 0xd6, 0xb3, 0x29, 0xe3, 0x2f, 0x84,
   0x53, 0xd1, 0x00, 0xed, 0x20, 0xfc, 0xb1, 0x5b, 0x6a, 0xcb, 0xbe, 0x39, 0x4a, 0x4c, 0x58, 0xcf,
   0xd0, 0xef, 0xaa, 0xfb, 0x43, 0x4d, 0x33, 0x85, 0x45, 0xf9, 0x02, 0x7f, 0x50, 0x3c, 0x9f, 0xa8,
   0x51, 0xa3, 0x40, 0x8f, 0x92, 0x9d, 0x38, 0xf5, 0xbc, 0xb6, 0xda, 0x21, 0x10, 0xff, 0xf3, 0xd2,
   0xcd, 0x0c, 0x13, 0xec, 0x5f, 0x97, 0x44, 0x17, 0xc4, 0xa7, 0x7e, 0x3d, 0x64, 0x5d, 0x19, 0x73,
   0x60, 0x81, 0x4f, 0xdc, 0x22, 0x2a, 0x90, 0x88, 0x46, 0xee, 0xb8, 0x14, 0xde, 0x5e, 0x0b, 0xdb,
   0xe0, 0x32, 0x3a, 0x0a, 0x49, 0x06, 0x24, 0x5c, 0xc2, 0xd3, 0xac, 0x62, 0x91, 0x95, 0xe4, 0x79,
   0xe7, 0xc8, 0x37, 0x6d, 0x8d, 0xd5, 0x4e, 0xa9, 0x6c, 0x56, 0xf4, 0xea, 0x65, 0x7a, 0xae, 0x08,
   0xba, 0x78, 0x25, 0x2e, 0x1c, 0xa6, 0xb4, 0xc6, 0xe8, 0xdd, 0x74, 0x1f, 0x4b, 0xbd, 0x8b, 0x8a,
   0x70, 0x3e, 0xb5, 0x66, 0x48, 0x03, 0xf6, 0x0e, 0x61, 0x35, 0x57, 0xb9, 0x86, 0xc1, 0x1d, 0x9e,
   0xe1, 0xf8, 0x98, 0x11, 0x69, 0xd9, 0x8e, 0x94, 0x9b, 0x1e, 0x87, 0xe9, 0xce, 0x55, 0x28, 0xdf,
   0x8c, 0xa1, 0x89, 0x0d, 0xbf, 0xe6, 0x42, 0x68, 0x41, 0x99, 0x2d, 0x0f, 0xb0, 0x54, 0xbb, 0x16]

/-- S-box lookup. -/
def sboxAt (i : Nat) : Nat := sbox.getD i 0

/-- Multiplication by `x` in GF(2^8) with the AES polynomial. -/
def xtime (a : Nat) : Nat := if 128 ≤ a then (a * 2) ^^^ 0x11b else a * 2

/-- Multiplication by 2 in GF(2^8). -/
def gmul2 (a : Nat) : Nat := xtime a

/-- Multiplication by 3 in GF(2^8). -/
def gmul3 (a : Nat) : Nat := xtime a ^^^ a

/-- AES round constants. -/
def rcon : List Nat := [0x01, 0x02, 0x04, 0x08, 0x10, 0x20, 0x40, 0x80, 0x1b, 0x36]

/-- Apply the S-box to each byte of a word. -/
def subWord (w : List Nat) : List Nat := w.map sboxAt

/-- Rotate a 4-byte word left by one byte. -/
def rotWord : List Nat → List Nat
  | [] => []
  | a :: rest => rest ++ [a]

/-- Byte-wise xor of two words. -/
def xorWord (a b : List Nat) : List Nat := List.zipWith (fun x y => x ^^^ y) a b

/-- AES key expansion (FIPS-197 section 5.2) for 16/24/32-byte keys, as a list
of 4-byte round-key words. -/
def expandKey (key : List Nat) : List (List Nat) :=
  let nk := key.length / 4
  let nr := nk + 6
  let init := (List.range nk).map fun i => ((key.drop (4 * i)).take 4)
  (List.range (4 * (nr + 1) - nk)).foldl
    (fun ws j =>
      let i := nk + j
      let prev := ws.getD (i - 1) []
      let t :=
        if i % nk == 0 then
          xorWord (subWord (rotWord prev)) [rcon.getD (i / nk - 1) 0, 0, 0, 0]
        else if 6 < nk && i % nk == 4 then
          subWord prev
        else
          prev
      ws ++ [xorWord (ws.getD (i - nk) []) t])
    init

/-- AddRoundKey on the flat 16-byte state (state byte `r + 4 c`). -/
def addRoundKey (s : List Nat) (rk : List (List Nat)) : List Nat :=
  List.zipWith (fun x y => x ^^^ y) s rk.flatten

/-- SubBytes. -/
def subBytes (s : List Nat) : List Nat := s.map sboxAt

/-- ShiftRows: row `r` (bytes `r + 4 c`) rotates left by `r`. -/
def shiftRows (s : List Nat) : List Nat :=
  (List.range 16).map fun i =>
    let r := i % 4
    let c := i / 4
    s.getD (r + 4 * ((c + r) % 4)) 0

/-- MixColumns. -/
def mixColumns (s : List Nat) : List Nat :=
  (List.range 16).map fun i =>
    let c := i / 4
    let a := fun k => s.getD (4 * c + k) 0
    match i % 4 with
    | 0 => gmul2 (a 0) ^^^ gmul3 (a 1) ^^^ a 2 ^^^ a 3
    | 1 => a 0 ^^^ gmul2 (a 1) ^^^ gmul3 (a 2) ^^^ a 3
    | 2 => a 0 ^^^ a 1 ^^^ gmul2 (a 2) ^^^ gmul3 (a 3)
    | _ => gmul3 (a 0) ^^^ a 1 ^^^ a 2 ^^^ gmul2 (a 3)

/-- AES block encryption (FIPS-197 section 5.1). -/
def aesEncryptBlock (key block : List Nat) : List Nat :=
  let ws := expandKey key
  let nr := key.length / 4 + 6
  let s := addRoundKey block (ws.take 4)
  let s := (List.range (nr - 1)).foldl
    (fun s rnd =>
      addRoundKey (mixColumns (shiftRows (subBytes s))) ((ws.drop (4 * (rnd + 1))).take 4))
    s
  addRoundKey (shiftRows (subBytes s)) ((ws.drop (4 * nr)).take 4)

/-- Byte `i` of the CTR keystream for the all-zero IV:  byte `i % 16` of the
encryption of the big-endian counter block `i / 16` (Go's `cipher.NewCTR`
starts at the IV itself and increments big-endian). -/
def keystreamByte (key : List Nat) (i : Nat) : Nat :=
  (aesEncryptBlock key (beBytes 16 (i / 16))).getD (i % 16) 0

/-- Xor a buffer against the keystream starting at stream position `i`. -/
def ctrXorFrom (key : List Nat) : Nat → List Nat → List Nat
  | _, [] => []
  | i, b :: bs => (b ^^^ keystreamByte key i) :: ctrXorFrom key (i + 1) bs

/-- The transform `cipher.NewCTR(block, iv).XORKeyStream(dst, src)` with the
all-zero `iv`, as run by both `Service.Write` (encrypt) and `Service.Read`
(decrypt) over the whole buffer. -/
def ctrXor (key data : List Nat) : List Nat := ctrXorFrom key 0 data

/-- Errors of `crypto/aes.NewCipher`: it succeeds exactly for 16-, 24- and
32-byte keys and reports `KeySizeError(len(key))` otherwise. -/
inductive AESError where
  | keySize (n : Nat)
deriving DecidableEq, Repr

/-- Model of `aes.NewCipher`. -/
def aesNewCipher (key : List Nat) : Except AESError (List (List Nat)) :=
  if key.length = 16 ∨ key.length = 24 ∨ key.length = 32 then
    .ok (expandKey key)
  else
    .error (.keySize key.length)

/-! ## Hex encoding

`Service.Write` hex-prints byte slices with `fmt.Sprintf("%x", ...)` (two
lowercase digits per byte); `Service.Read` decodes with
`encoding/hex.DecodeString`. -/

/-- The lowercase hex digits (Go's `ldigits` table). -/
def hexDigits : List Char := "0123456789abcdef".data

/-- Digit for a value below 16. -/
def hexDigit (n : Nat) : Char := hexDigits.getD n '0'

/-- Go's `fmt.Sprintf("%x", bs)` on a byte slice: two lowercase digits per byte,
empty string for an empty (or nil) slice. -/
def hexEncode (bs : List Nat) : String :=
  String.mk (bs.foldr (fun b acc => hexDigit (b / 16 % 16) :: hexDigit (b % 16) :: acc) [])

/-- Errors of `encoding/hex`: an invalid byte, or an odd-length input. -/
inductive HexError where
  | invalidByte (c : Char)
  | oddLength
deriving DecidableEq, Repr

/-- Value of one hex digit (upper or lower case, as in Go's `fromHexChar`). -/
def hexVal (c : Char) : Option Nat :=
  if 48 ≤ c.toNat ∧ c.toNat ≤ 57 then some (c.toNat - 48)
  else if 97 ≤ c.toNat ∧ c.toNat ≤ 102 then some (c.toNat - 87)
  else if 65 ≤ c.toNat ∧ c.toNat ≤ 70 then some (c.toNat - 55)
  else none

/-- Go's `encoding/hex.DecodeString`, processing digit pairs left to right. -/
def hexDecodeList : List Char → Except HexError (List Nat)
  | [] => .ok []
  | [c] =>
      match hexVal c with
      | none => .error (.invalidByte c)
      | some _ => .error .oddLength
  | c1 :: c2 :: rest =>
      match hexVal c1 with
      | none => .error (.invalidByte c1)
      | some a =>
          match hexVal c2 with
          | none => .error (.invalidByte c2)
          | some b =>
              match hexDecodeList rest with
              | .error e => .error e
              | .ok bs => .ok ((a * 16 + b) :: bs)

/-- Go's `encoding/hex.DecodeString` on a `String`. -/
def hexDecode (s : String) : Except HexError (List Nat) := hexDecodeList s.data

/-! ## Standard base64

`Service.Write` appends `base64.StdEncoding.EncodeToString(key)` after `#`;
`Service.Read` decodes the captured key segment with
`base64.StdEncoding.DecodeString`.  Decoding follows Go's `decodeQuantum`:
newlines are skipped anywhere, `=` padding is validated, and errors are
`CorruptInputError(offset)`, modelled as the offending offset. -/

/-- The standard base64 alphabet (Go's `encodeStd`). -/
def b64Chars : List Char :=
  "ABCDEFGHIJKLMNOPQRSTUVWXYZabcdefghijklmnopqrstuvwxyz0123456789+/".data

/-- Alphabet character for a 6-bit value. -/
def b64Char (n : Nat) : Char := b64Chars.getD n 'A'

/-- Decode map: 6-bit value of an alphabet character. -/
def b64Val (c : Char) : Option Nat :=
  if 65 ≤ c.toNat ∧ c.toNat ≤ 90 then some (c.toNat - 65)
  else if 97 ≤ c.toNat ∧ c.toNat ≤ 122 then some (c.toNat - 71)
  else if 48 ≤ c.toNat ∧ c.toNat ≤ 57 then some (c.toNat + 4)
  else if c = '+' then some 62
  else if c = '/' then some 63
  else none

/-- Go's `base64.StdEncoding.EncodeToString`, three input bytes per four output
characters, `=`-padded. -/
def b64EncodeList : List Nat → List Char
  | [] => []
  | [a] => [b64Char (a / 4 % 64), b64Char (a % 4 * 16), '=', '=']
  | [a, b] => [b64Char (a / 4 % 64), b64Char (a % 4 * 16 + b / 16), b64Char (b % 16 * 4), '=']
  | a :: b :: c :: rest =>
      b64Char (a / 4 % 64) :: b64Char (a % 4 * 16 + b / 16) ::
      b64Char (b % 16 * 4 + c / 64 % 4) :: b64Char (c % 64) :: b64EncodeList rest

/-- Go's `base64.StdEncoding.EncodeToString` on a byte list. -/
def b64Encode (bs : List Nat) : String := String.mk (b64EncodeList bs)

/-- Is this a newline byte the Go decoder skips? -/
def isNL (c : Char) : Bool := c = '\n' || c = '\r'

/-- Skip newline characters, tracking the input offset. -/
def b64SkipNL : List Char → Nat → List Char × Nat
  | [], si => ([], si)
  | c :: rest, si => if isNL c then b64SkipNL rest (si + 1) else (c :: rest, si)

/-- Go's `decodeQuantum` for the padded standard encoding: collect up to four
6-bit values (skipping newlines), handling `=` padding.  Returns the remaining
input, the new offset, the collected values and the quantum length `dlen`;
errors are `CorruptInputError` offsets. -/
def b64Quantum : List Char → Nat → List Nat → Except Nat (List Char × Nat × List Nat × Nat)
  | [], si, vals =>
      if vals.length = 0 then .ok ([], si, vals, 0)
      else .error (si - vals.length)
  | c :: rest, si, vals =>
      match b64Val c with
      | some v =>
          if vals.length = 3 then .ok (rest, si + 1, vals ++ [v], 4)
          else b64Quantum rest (si + 1) (vals ++ [v])
      | none =>
          if isNL c then b64Quantum rest (si + 1) vals
          else if c = '=' then
            match vals.length with
            | 2 =>
                match b64SkipNL rest (si + 1) with
                | ([], si2) => .error si2
                | (c2 :: rest3, si2) =>
                    if c2 = '=' then
                      match b64SkipNL rest3 (si2 + 1) with
                      | ([], si4) => .ok ([], si4, vals, 2)
                      | (_ :: _, si4) => .error si4
                    else .error (si2 - 1)
            | 3 =>
                match b64SkipNL rest (si + 1) with
                | ([], si2) => .ok ([], si2, vals, 3)
                | (_ :: _, si2) => .error si2
            | _ => .error si
          else .error si

/-- Reassemble a decoded quantum into `dlen - 1` output bytes. -/
def b64Assemble (vals : List Nat) (dlen : Nat) : List Nat :=
  let d := fun i => vals.getD i 0
  let val := d 0 * 262144 + d 1 * 4096 + d 2 * 64 + d 3
  match dlen with
  | 4 => [val / 65536 % 256, val / 256 % 256, val % 256]
  | 3 => [val / 65536 % 256, val / 256 % 256]
  | 2 => [val / 65536 % 256]
  | _ => []

/-- The main decode loop of `base64.StdEncoding.DecodeString`.  A successful
quantum on a non-empty input always consumes at least one character, so the
input length bounds the number of iterations; the `fuel` argument makes that
bound explicit and the recursion structural (the zero-fuel branch is never
reached when `fuel` starts at the input length). -/
def b64Go : Nat → List Char → Nat → Except Nat (List Nat)
  | _, [], _ => .ok []
  | 0, _ :: _, _ => .ok []
  | fuel + 1, c :: cs, si =>
      match b64Quantum (c :: cs) si [] with
      | .error e => .error e
      | .ok (rest, si2, vals, dlen) =>
          match b64Go fuel rest si2 with
          | .error e => .error e
          | .ok bs => .ok (b64Assemble vals dlen ++ bs)

/-- The decode loop started with enough fuel for the whole input. -/
def b64DecodeMain (cs : List Char) (si : Nat) : Except Nat (List Nat) :=
  b64Go cs.length cs si

/-- Go's `base64.StdEncoding.DecodeString`; the error is the `CorruptInputError`
offset. -/
def b64Decode (s : String) : Except Nat (List Nat) := b64DecodeMain s.data 0

/-! ## The locator regex

`QueryMatchRegex` is `([a-f0-9]+)/([a-f0-9]+)(?:#(.+))?$` and `Service.Read`
uses `FindStringSubmatch`, i.e. Go's leftmost-first semantics: the match that
starts earliest wins, and at a given start the pattern's own preferences
(greedy `+`, greedy `?`) decide.

For this particular pattern backtracking collapses to a deterministic scan:

* the first group `[a-f0-9]+` can only end where the run of hex characters
  ends, because the character it must stop before is `/`, which is not a hex
  character — shortening the group just exposes another hex character where
  `/` is required, which always fails;
* likewise the second group must swallow the whole hex run, because the
  character after it must be `#` (not hex) or the end of the string;
* the optional `(?:#(.+))?` is tried first (greedy `?`), and `(.+)` then
  swallows everything to the end, which always satisfies the trailing `$`;
  the group can only apply when at least one character follows `#`.

`matchAt` below is that deterministic residue, and `findFrom` scans start
positions left to right exactly as the leftmost-first search does. -/

/-- Is `c` matched by the character class `[a-f0-9]`? -/
def isHexC (c : Char) : Bool :=
  (97 ≤ c.toNat && c.toNat ≤ 102) || (48 ≤ c.toNat && c.toNat ≤ 57)

/-- Length of the maximal `[a-f0-9]` run at the front of `s`. -/
def hexRunLen : List Char → Nat
  | [] => 0
  | c :: cs => if isHexC c then hexRunLen cs + 1 else 0

/-- Match `([a-f0-9]+)/([a-f0-9]+)(?:#(.+))?$` anchored at the start of `s`
and required to reach the end of `s`, with Go's preference order.  Returns the
three captures (the third one `none` when the optional group did not match). -/
def matchAt (s : List Char) : Option (List Char × List Char × Option (List Char)) :=
  let m := hexRunLen s
  if m = 0 then none
  else
    match s.drop m with
    | '/' :: t2 =>
        let r := hexRunLen t2
        if r = 0 then none
        else
          match t2.drop r with
          | [] => some (s.take m, t2.take r, none)
          | '#' :: rest => if rest.isEmpty then none else some (s.take m, t2.take r, some rest)
          | _ => none
    | _ => none

/-- Leftmost-first search: try every start position from the left. -/
def findFrom : List Char → Option (List Char × List Char × Option (List Char))
  | [] => none
  | c :: cs =>
      match matchAt (c :: cs) with
      | some m => some m
      | none => findFrom cs

/-! ## The pastila service -/

/-- Errors of `Service.executeRequestWithParams`. -/
inductive ExecError where
  /-- Sentinel `ErrInvalidUrl` wrapped as `"%w, missing query id"` when the
  `X-ClickHouse-Query-Id` header is absent. -/
  | invalidUrlMissingQueryId
  /-- Error `"unexpected status code: %d, response: %s"`. -/
  | unexpectedStatus (code : Nat) (body : List Char)
deriving DecidableEq, Repr

/-- Error classification of `pkg/pastila`, following the sentinel errors and
the `fmt.Errorf` wrap sites of `service.go`. -/
inductive PastilaError where
  /-- Sentinel `ErrInvalidUrl` wrapped as `"%w: %s"` when the regex does not match. -/
  | invalidUrl (url : String)
  /-- Sentinel `ErrNotFound` when the select returns no bytes. -/
  | notFound (fingerprintHex hashHex : String)
  /-- Sentinel `ErrKeyRequired` for an encrypted row and an empty key. -/
  | keyRequired
  /-- Sentinel `ErrInvalidKey` wrapping a base64 `CorruptInputError` from the key
  segment. -/
  | invalidKeyBase64 (offset : Nat)
  /-- Sentinel `ErrInvalidKey` wrapping `aes.KeySizeError` from `aes.NewCipher`. -/
  | invalidKeyCipher (e : AESError)
  /-- Sentinel `ErrInvalidKey` wrapping a failure to read/decode the base64
  ciphertext body. -/
  | invalidKeyCiphertext (offset : Nat)
  /-- plain wrap `"failed to decode fingerprint/hash"` around `encoding/hex`
  errors. -/
  | hexDecodeFailed (e : HexError)
  /-- plain wrap `"failed to execute ClickHouse request"`. -/
  | requestFailed (e : ExecError)
deriving DecidableEq, Repr

/-- The parsing front of `Service.Read` (service.go lines 52–68): regex match,
then base64 decoding of the key capture.  `FindStringSubmatch` always returns
four entries for this three-group pattern, so the key branch always runs, with
an empty string (decoding to an empty key) when the group was unmatched. -/
def parseURL (url : String) : Except PastilaError (String × String × List Nat) :=
  match findFrom url.data with
  | none => .error (.invalidUrl url)
  | some (fpcs, hcs, keyOpt) =>
      match b64Decode (String.mk (keyOpt.getD [])) with
      | .error e => .error (.invalidKeyBase64 e)
      | .ok key => .ok (String.mk fpcs, String.mk hcs, key)

/-- An HTTP response from the ClickHouse backend as the client observes it:
the `X-ClickHouse-Query-Id` header, the status code, and the body. -/
structure CHResponse where
  queryId : String
  status : Nat
  body : List Char
deriving DecidableEq, Repr

/-- Model of `Service.executeRequestWithParams` (service.go lines 251–277), response
side.  The `Bool` paired with an error records that the function closed the
response body itself before returning (it does on both error paths). -/
def executeRequestWithParams (resp : CHResponse) : Except (ExecError × Bool) CHResponse :=
  if resp.queryId = "" then .error (.invalidUrlMissingQueryId, true)
  else if resp.status ≠ 200 then .error (.unexpectedStatus resp.status resp.body, true)
  else .ok resp

/-- A paste, as `pkg/pastila.Paste` (content buffered as bytes).  `key` is an
`Option` to keep Go's nil/non-nil slice distinction, which `Service.Write`
branches on. -/
structure Paste where
  url : String
  fingerprint : List Nat
  hash : List Nat
  previousFingerprint : List Nat
  previousHash : List Nat
  key : Option (List Nat)
  content : List Nat
  queryId : String
deriving DecidableEq, Repr

/-- Model of `pastila.writeOptions`. -/
structure WriteOptions where
  key : Option (List Nat) := none
  previousFingerprint : List Nat := []
  previousHash : List Nat := []
deriving DecidableEq, Repr

/-- Model of `pastila.WithKey`. -/
def WithKey (k : Option (List Nat)) (o : WriteOptions) : WriteOptions :=
  { o with key := k }

/-- Model of `pastila.WithPreviousPaste`: a nil paste leaves the options untouched;
otherwise it copies fingerprint, hash and key from the previous paste. -/
def WithPreviousPaste (p : Option Paste) (o : WriteOptions) : WriteOptions :=
  match p with
  | none => o
  | some q => { o with previousFingerprint := q.fingerprint, previousHash := q.hash, key := q.key }

/-- The default pastila URL (service.go line 18). -/
def DefaultPastilaURL : String := "https://pastila.nl/"

/-- The locator string built by `Service.Write` (service.go line 239):
`fmt.Sprintf("%s?%x/%x%s", pastilaURL, fingerprint, hash, keyAppend)` where
`keyAppend` is `"#" + base64(key)` for a non-nil key and empty otherwise. -/
def buildURL (pastilaURL : String) (fingerprint hash : List Nat)
    (key : Option (List Nat)) : String :=
  pastilaURL ++ "?" ++ hexEncode fingerprint ++ "/" ++ hexEncode hash ++
    (match key with
     | some k => "#" ++ b64Encode k
     | none => "")

/-- The row `Service.Write` frames for the insert query (service.go lines
202–215), field by field. -/
structure InsertRecord where
  hashHex : String
  fingerprintHex : String
  prevHashHex : String
  prevFingerprintHex : String
  isEncrypted : Char
  content : List Nat
deriving DecidableEq, Repr

/-- The tab-separated `FORMAT Raw` serialization of the insert row, exactly as
written into the request buffer. -/
def serializeRecord (r : InsertRecord) : List Nat :=
  r.hashHex.data.map Char.toNat ++ [9] ++
  r.fingerprintHex.data.map Char.toNat ++ [9] ++
  r.prevHashHex.data.map Char.toNat ++ [9] ++
  r.prevFingerprintHex.data.map Char.toNat ++ [9] ++
  [r.isEncrypted.toNat] ++ [9] ++ r.content

/-- The encryption step of `Service.Write` (service.go lines 183–197): with a
non-nil key, build the AES cipher (failing with `ErrInvalidKey` wrapping the
construction error) and xor the content against the zero-IV CTR keystream,
marking the row encrypted; with a nil key pass the content through. -/
def writeEncrypt (key : Option (List Nat)) (input : List Nat) :
    Except PastilaError (List Nat × Char) :=
  match key with
  | some k =>
      match aesNewCipher k with
      | .error e => .error (.invalidKeyCipher e)
      | .ok _ => .ok (ctrXor k input, '1')
  | none => .ok (input, '0')

/-- Model of `Service.Write` (service.go lines 175–249).  `input` is the fully read
input, `resp` the backend's response to the insert request.  On success it
returns both the framed insert record (what was sent) and the `Paste` the
caller gets; an error means no request was issued (the cipher-construction
failure happens before the buffer is framed) or the request itself failed. -/
def WriteImpl (pastilaURL : String) (input : List Nat)
    (opt : List (WriteOptions → WriteOptions)) (resp : CHResponse) :
    Except PastilaError (InsertRecord × Paste) :=
  let opts := opt.foldl (fun o f => f o) {}
  match writeEncrypt opts.key input with
  | .error e => .error e
  | .ok (content, isEnc) =>
      let hash := sipHash128 content
      let fingerprint := [0xff, 0xff, 0xff, 0xff]
      let record : InsertRecord :=
        { hashHex := hexEncode hash
          fingerprintHex := hexEncode fingerprint
          prevHashHex := hexEncode opts.previousHash
          prevFingerprintHex := hexEncode opts.previousFingerprint
          isEncrypted := isEnc
          content := content }
      match executeRequestWithParams resp with
      | .error (e, _) => .error (.requestFailed e)
      | .ok res =>
          let purl := if pastilaURL = "" then DefaultPastilaURL else pastilaURL
          .ok (record,
            { url := buildURL purl fingerprint hash opts.key
              fingerprint := fingerprint
              hash := hash
              previousFingerprint := opts.previousFingerprint
              previousHash := opts.previousHash
              key := opts.key
              content := content
              queryId := res.queryId })

/-- Model of `Service.Read` (service.go lines 52–144).  `resp` is the backend's
response to the select request:  its body is `is_encrypted`, a tab, then the
content (`FORMAT Raw`).  The two-byte header read consumes at most two bytes;
an empty body is the `io.EOF` / not-found case. -/
def ReadImpl (url : String) (resp : CHResponse) : Except PastilaError Paste :=
  match parseURL url with
  | .error e => .error e
  | .ok (fingerprintHex, hashHex, key) =>
      match executeRequestWithParams resp with
      | .error (e, _) => .error (.requestFailed e)
      | .ok res =>
          match res.body with
          | [] => .error (.notFound fingerprintHex hashHex)
          | flag :: _ =>
              match hexDecode fingerprintHex with
              | .error e => .error (.hexDecodeFailed e)
              | .ok fingerprint =>
                  match hexDecode hashHex with
                  | .error e => .error (.hexDecodeFailed e)
                  | .ok hash =>
                      let rest := res.body.drop (min 2 res.body.length)
                      if flag = '0' then
                        .ok { url := url, fingerprint := fingerprint, hash := hash,
                              previousFingerprint := [], previousHash := [],
                              key := some key, content := rest.map Char.toNat,
                              queryId := res.queryId }
                      else if key.length = 0 then .error .keyRequired
                      else
                        match aesNewCipher key with
                        | .error e => .error (.invalidKeyCipher e)
                        | .ok _ =>
                            match b64Decode (String.mk rest) with
                            | .error e => .error (.invalidKeyCiphertext e)
                            | .ok ciphertext =>
                                .ok { url := url, fingerprint := fingerprint, hash := hash,
                                      previousFingerprint := [], previousHash := [],
                                      key := some key, content := ctrXor key ciphertext,
                                      queryId := res.queryId }

/-! ## The edit session's change detector

`watchFile` (cmd/pastila/main.go lines 278–313) samples the temporary file's
`os.FileInfo` in a tight loop and calls the change handler according to
`execChangeHandlerIfFileChanged`. -/

/-- The two fields of the sampled `os.FileInfo` the watcher compares. -/
structure FileStat where
  size : Int
  modTime : Int
deriving DecidableEq, Repr

/-- Does `execChangeHandlerIfFileChanged` invoke the change handler, given the
last observed snapshot and the freshly sampled one?  The source returns early
when `actualStat.Size() == 0 || actualStat.Size() == stat.Size() ||
actualStat.ModTime() == stat.ModTime()`. -/
def watchTriggers (last actual : FileStat) : Bool :=
  !(actual.size == 0 || actual.size == last.size || actual.modTime == last.modTime)

/-- Modelled from the spec: the change-detection predicate stated in the
specification, "non-zero size AND (size changed OR mtime changed)" — the
saving transition fires when the new size is non-zero and either the size or
the modification time differs from the last observed snapshot. -/
def specChangeDetected (last actual : FileStat) : Bool :=
  actual.size != 0 && (actual.size != last.size || actual.modTime != last.modTime)

/-! ## Supporting lemmas -/

theorem xor_xor_cancel (b s : Nat) : (b ^^^ s) ^^^ s = b := by
  rw [Nat.xor_assoc, Nat.xor_self, Nat.xor_zero]

/-! ### Hex encoding lemmas -/

theorem isHexC_hexDigit : ∀ n < 16, isHexC (hexDigit n) = true := by decide

theorem hexVal_hexDigit : ∀ n < 16, hexVal (hexDigit n) = some n := by decide

theorem hexEncode_data_cons (b : Nat) (bs : List Nat) :
    (hexEncode (b :: bs)).data =
      hexDigit (b / 16 % 16) :: hexDigit (b % 16) :: (hexEncode bs).data := rfl

theorem hexEncode_allHex (bs : List Nat) : ∀ c ∈ (hexEncode bs).data, isHexC c = true := by
  induction bs with
  | nil => intro c hc; exact absurd hc (by simp [hexEncode])
  | cons b bs ih =>
      intro c hc
      rw [hexEncode_data_cons] at hc
      rcases List.mem_cons.mp hc with rfl | hc
      · exact isHexC_hexDigit _ (Nat.mod_lt _ (by decide))
      · rcases List.mem_cons.mp hc with rfl | hc
        · exact isHexC_hexDigit _ (Nat.mod_lt _ (by decide))
        · exact ih c hc

theorem hexEncode_ne_nil {bs : List Nat} (h : bs ≠ []) : (hexEncode bs).data ≠ [] := by
  cases bs with
  | nil => exact absurd rfl h
  | cons b bs => rw [hexEncode_data_cons]; simp

theorem hexDecodeList_hexEncode :
    ∀ (bs : List Nat), (∀ b ∈ bs, b < 256) → hexDecodeList (hexEncode bs).data = .ok bs
  | [], _ => rfl
  | b :: bs, hb => by
      rw [hexEncode_data_cons]
      have h1 : hexVal (hexDigit (b / 16 % 16)) = some (b / 16 % 16) :=
        hexVal_hexDigit _ (Nat.mod_lt _ (by decide))
      have h2 : hexVal (hexDigit (b % 16)) = some (b % 16) :=
        hexVal_hexDigit _ (Nat.mod_lt _ (by decide))
      simp only [hexDecodeList, h1, h2]
      rw [hexDecodeList_hexEncode bs (fun x hx => hb x (List.mem_cons_of_mem _ hx))]
      have hb2 : b < 256 := hb b (List.mem_cons_self _ _)
      have harith : b / 16 % 16 * 16 + b % 16 = b := by omega
      rw [harith]

theorem hexDecode_hexEncode (bs : List Nat) (hb : ∀ b ∈ bs, b < 256) :
    hexDecode (hexEncode bs) = .ok bs :=
  hexDecodeList_hexEncode bs hb

/-! ### Base64 lemmas -/

theorem b64Val_b64Char : ∀ v < 64, b64Val (b64Char v) = some v := by decide

theorem b64Char_ne_hash (v : Nat) : b64Char v ≠ '#' := by
  by_cases h : v < 64
  · exact (by decide : ∀ v2 < 64, b64Char v2 ≠ '#') v h
  · unfold b64Char
    rw [List.getD_eq_default _ _ (by
      have h64 : b64Chars.length = 64 := by decide
      omega)]
    decide

theorem b64EncodeList_no_hash : ∀ (bs : List Nat), ∀ c ∈ b64EncodeList bs, c ≠ '#'
  | [] => by simp [b64EncodeList]
  | [a] => by
      intro c hc
      simp only [b64EncodeList, List.mem_cons, List.not_mem_nil, or_false] at hc
      rcases hc with rfl | rfl | rfl | rfl <;> first | exact b64Char_ne_hash _ | decide
  | [a, b] => by
      intro c hc
      simp only [b64EncodeList, List.mem_cons, List.not_mem_nil, or_false] at hc
      rcases hc with rfl | rfl | rfl | rfl <;> first | exact b64Char_ne_hash _ | decide
  | a :: b :: c :: rest => by
      intro d hd
      simp only [b64EncodeList, List.mem_cons] at hd
      rcases hd with rfl | rfl | rfl | rfl | hd
      · exact b64Char_ne_hash _
      · exact b64Char_ne_hash _
      · exact b64Char_ne_hash _
      · exact b64Char_ne_hash _
      · exact b64EncodeList_no_hash rest d hd

theorem b64EncodeList_ne_nil : ∀ (bs : List Nat), bs ≠ [] → b64EncodeList bs ≠ []
  | [], h => absurd rfl h
  | [_], _ => by simp [b64EncodeList]
  | [_, _], _ => by simp [b64EncodeList]
  | _ :: _ :: _ :: _, _ => by simp [b64EncodeList]

theorem b64Quantum_four {c0 c1 c2 c3 : Char} {v0 v1 v2 v3 : Nat} (rest : List Char) (si : Nat)
    (h0 : b64Val c0 = some v0) (h1 : b64Val c1 = some v1)
    (h2 : b64Val c2 = some v2) (h3 : b64Val c3 = some v3) :
    b64Quantum (c0 :: c1 :: c2 :: c3 :: rest) si [] =
      .ok (rest, si + 1 + 1 + 1 + 1, [v0, v1, v2, v3], 4) := by
  simp [b64Quantum, h0, h1, h2, h3]

theorem b64Quantum_pad2 {c0 c1 : Char} {v0 v1 : Nat} (si : Nat)
    (h0 : b64Val c0 = some v0) (h1 : b64Val c1 = some v1) :
    b64Quantum [c0, c1, '=', '='] si [] = .ok ([], si + 1 + 1 + 1 + 1, [v0, v1], 2) := by
  simp [b64Quantum, h0, h1, b64SkipNL, isNL,
    (by decide : b64Val ('=') = none)]

theorem b64Quantum_pad3 {c0 c1 c2 : Char} {v0 v1 v2 : Nat} (si : Nat)
    (h0 : b64Val c0 = some v0) (h1 : b64Val c1 = some v1) (h2 : b64Val c2 = some v2) :
    b64Quantum [c0, c1, c2, '='] si [] = .ok ([], si + 1 + 1 + 1 + 1, [v0, v1, v2], 3) := by
  simp [b64Quantum, h0, h1, h2, b64SkipNL, isNL,
    (by decide : b64Val ('=') = none)]

theorem b64Go_encode :
    ∀ (bs : List Nat), (∀ b ∈ bs, b < 256) →
      ∀ (si fuel : Nat), (b64EncodeList bs).length ≤ fuel →
      b64Go fuel (b64EncodeList bs) si = .ok bs
  | [], _ => fun _ fuel _ => by cases fuel <;> rfl
  | [a], hb => fun si fuel hf => by
      have ha : a < 256 := hb a (List.mem_cons_self _ _)
      rcases fuel with _ | f
      · exact absurd hf (by simp [b64EncodeList])
      · have h0 : b64Val (b64Char (a / 4 % 64)) = some (a / 4 % 64) :=
          b64Val_b64Char _ (Nat.mod_lt _ (by decide))
        have h1 : b64Val (b64Char (a % 4 * 16)) = some (a % 4 * 16) :=
          b64Val_b64Char _ (by omega)
        show b64Go (f + 1) (b64Char (a / 4 % 64) :: b64Char (a % 4 * 16) :: '=' :: '=' :: []) si =
          .ok [a]
        rw [show (b64Char (a / 4 % 64) :: b64Char (a % 4 * 16) :: '=' :: '=' :: []) =
          [b64Char (a / 4 % 64), b64Char (a % 4 * 16), '=', '='] from rfl]
        simp only [b64Go, b64Quantum_pad2 si h0 h1]
        simp [b64Assemble, List.getD]
        omega
  | [a, b], hb => fun si fuel hf => by
      have ha : a < 256 := hb a (List.mem_cons_self _ _)
      have hbb : b < 256 := hb b (List.mem_cons_of_mem _ (List.mem_cons_self _ _))
      rcases fuel with _ | f
      · exact absurd hf (by simp [b64EncodeList])
      · have h0 : b64Val (b64Char (a / 4 % 64)) = some (a / 4 % 64) :=
          b64Val_b64Char _ (Nat.mod_lt _ (by decide))
        have h1 : b64Val (b64Char (a % 4 * 16 + b / 16)) = some (a % 4 * 16 + b / 16) :=
          b64Val_b64Char _ (by omega)
        have h2 : b64Val (b64Char (b % 16 * 4)) = some (b % 16 * 4) :=
          b64Val_b64Char _ (by omega)
        show b64Go (f + 1) [b64Char (a / 4 % 64), b64Char (a % 4 * 16 + b / 16),
          b64Char (b % 16 * 4), '='] si = .ok [a, b]
        simp only [b64Go, b64Quantum_pad3 si h0 h1 h2]
        simp [b64Assemble, List.getD]
        omega
  | a :: b :: c :: rest, hb => fun si fuel hf => by
      have ha : a < 256 := hb a (List.mem_cons_self _ _)
      have hbb : b < 256 := hb b (List.mem_cons_of_mem _ (List.mem_cons_self _ _))
      have hcc : c < 256 :=
        hb c (List.mem_cons_of_mem _ (List.mem_cons_of_mem _ (List.mem_cons_self _ _)))
      have hlen : (b64EncodeList (a :: b :: c :: rest)).length =
          (b64EncodeList rest).length + 4 := by
        simp [b64EncodeList]
      rcases fuel with _ | f
      · exact absurd hf (by omega)
      · have h0 : b64Val (b64Char (a / 4 % 64)) = some (a / 4 % 64) :=
          b64Val_b64Char _ (Nat.mod_lt _ (by decide))
        have h1 : b64Val (b64Char (a % 4 * 16 + b / 16)) = some (a % 4 * 16 + b / 16) :=
          b64Val_b64Char _ (by omega)
        have h2 : b64Val (b64Char (b % 16 * 4 + c / 64 % 4)) = some (b % 16 * 4 + c / 64 % 4) :=
          b64Val_b64Char _ (by omega)
        have h3 : b64Val (b64Char (c % 64)) = some (c % 64) :=
          b64Val_b64Char _ (by omega)
        have hrec := b64Go_encode rest
          (fun x hx => hb x (List.mem_cons_of_mem _ (List.mem_cons_of_mem _
            (List.mem_cons_of_mem _ hx))))
          (si + 1 + 1 + 1 + 1) f (by omega)
        show b64Go (f + 1) (b64Char (a / 4 % 64) :: b64Char (a % 4 * 16 + b / 16) ::
          b64Char (b % 16 * 4 + c / 64 % 4) :: b64Char (c % 64) :: b64EncodeList rest) si =
          .ok (a :: b :: c :: rest)
        simp only [b64Go, b64Quantum_four (b64EncodeList rest) si h0 h1 h2 h3, hrec]
        simp [b64Assemble, List.getD]
        omega

theorem b64Decode_b64Encode (bs : List Nat) (hb : ∀ b ∈ bs, b < 256) :
    b64Decode (b64Encode bs) = .ok bs :=
  b64Go_encode bs hb 0 _ (Nat.le_refl _)

/-! ### Regex matcher lemmas -/

theorem hexRunLen_append {xs : List Char} (ys : List Char)
    (h : ∀ c ∈ xs, isHexC c = true) :
    hexRunLen (xs ++ ys) = xs.length + hexRunLen ys := by
  induction xs with
  | nil => simp [hexRunLen]
  | cons c cs ih =>
      have hc := h c (List.mem_cons_self _ _)
      have ih2 := ih (fun d hd => h d (List.mem_cons_of_mem _ hd))
      simp only [List.cons_append, hexRunLen, if_pos hc, List.append_eq, List.length_cons]
      rw [ih2]
      omega

theorem hexRunLen_of_allHex {xs : List Char} (h : ∀ c ∈ xs, isHexC c = true) :
    hexRunLen xs = xs.length := by
  have := hexRunLen_append [] h
  simpa [hexRunLen] using this

theorem hexRunLen_stop {xs : List Char} {y : Char} (ys : List Char)
    (hx : ∀ c ∈ xs, isHexC c = true) (hy : isHexC y = false) :
    hexRunLen (xs ++ y :: ys) = xs.length := by
  rw [hexRunLen_append _ hx]
  simp [hexRunLen, hy]

theorem take_hexRunLen_allHex :
    ∀ (s : List Char), ∀ c ∈ s.take (hexRunLen s), isHexC c = true := by
  intro s
  induction s with
  | nil => simp
  | cons c cs ih =>
      by_cases h : isHexC c = true
      · simp only [hexRunLen, if_pos h, List.take_succ_cons]
        intro d hd
        rcases List.mem_cons.mp hd with rfl | hd
        · exact h
        · exact ih d hd
      · simp [hexRunLen, h]

/-- Decomposition of a successful anchored match: the input splits into the
two non-empty hex captures separated by a slash, followed (when the optional
group matched) by a hash sign and the non-empty key capture. -/
theorem matchAt_some_decomp {s fp hsh : List Char} {k : Option (List Char)}
    (hm : matchAt s = some (fp, hsh, k)) :
    fp ≠ [] ∧ hsh ≠ [] ∧ (∀ c ∈ fp, isHexC c = true) ∧ (∀ c ∈ hsh, isHexC c = true) ∧
      ((k = none ∧ s = fp ++ '/' :: hsh) ∨
       (∃ r, k = some r ∧ r ≠ [] ∧ s = fp ++ '/' :: (hsh ++ '#' :: r))) := by
  simp only [matchAt] at hm
  split at hm
  · exact absurd hm (by simp)
  · rename_i hm0
    split at hm
    case h_2 => exact absurd hm (by simp)
    case h_1 t2 heq =>
      split at hm
      · exact absurd hm (by simp)
      · rename_i hr0
        have hs : s = s.take (hexRunLen s) ++ '/' :: t2 := by
          conv_lhs => rw [← List.take_append_drop (hexRunLen s) s]
          rw [heq]
        split at hm
        case h_1 heq2 =>
          simp only [Option.some.injEq, Prod.mk.injEq] at hm
          obtain ⟨rfl, rfl, rfl⟩ := hm
          have ht2 : t2 = t2.take (hexRunLen t2) := by
            conv_lhs => rw [← List.take_append_drop (hexRunLen t2) t2]
            rw [heq2, List.append_nil]
          refine ⟨?_, ?_, take_hexRunLen_allHex s, take_hexRunLen_allHex t2, ?_⟩
          · intro hnil
            rcases List.take_eq_nil_iff.mp hnil with h0 | h0
            · exact hm0 h0
            · rw [h0] at heq; exact absurd heq (by simp)
          · intro hnil
            rcases List.take_eq_nil_iff.mp hnil with h0 | h0
            · exact hr0 h0
            · rw [h0] at heq2
              rw [h0] at hr0
              exact hr0 rfl
          · left
            refine ⟨rfl, ?_⟩
            conv_lhs => rw [hs, ht2]
        case h_2 rest heq2 =>
          split at hm
          · exact absurd hm (by simp)
          · rename_i hrest
            simp only [Option.some.injEq, Prod.mk.injEq] at hm
            obtain ⟨rfl, rfl, rfl⟩ := hm
            have ht2 : t2 = t2.take (hexRunLen t2) ++ '#' :: rest := by
              conv_lhs => rw [← List.take_append_drop (hexRunLen t2) t2]
              rw [heq2]
            refine ⟨?_, ?_, take_hexRunLen_allHex s, take_hexRunLen_allHex t2, ?_⟩
            · intro hnil
              rcases List.take_eq_nil_iff.mp hnil with h0 | h0
              · exact hm0 h0
              · rw [h0] at heq; exact absurd heq (by simp)
            · intro hnil
              rcases List.take_eq_nil_iff.mp hnil with h0 | h0
              · exact hr0 h0
              · rw [h0] at heq2; exact absurd heq2 (by simp)
            · right
              refine ⟨rest, rfl, by simpa [List.isEmpty_iff] using hrest, ?_⟩
              conv_lhs => rw [hs, ht2]
        case h_3 => exact absurd hm (by simp)

/-- A marker character that occurs in neither prefix splits a list uniquely. -/
theorem append_marker_eq {m : Char} :
    ∀ (l1 l2 r1 r2 : List Char), m ∉ l1 → m ∉ l2 →
      l1 ++ m :: r1 = l2 ++ m :: r2 → l1 = l2 ∧ r1 = r2
  | [], [], r1, r2 => fun _ _ h => by simpa using h
  | [], c :: l2, r1, r2 => fun _ h2 h => by
      simp only [List.nil_append, List.cons_append, List.cons.injEq] at h
      cases h.1
      exact absurd (List.mem_cons_self _ _) h2
  | c :: l1, [], r1, r2 => fun h1 _ h => by
      simp only [List.nil_append, List.cons_append, List.cons.injEq] at h
      cases h.1.symm
      exact absurd (List.mem_cons_self _ _) h1
  | c :: l1, d :: l2, r1, r2 => fun h1 h2 h => by
      simp only [List.cons_append, List.cons.injEq] at h
      obtain ⟨rfl, h⟩ := h
      have ih := append_marker_eq l1 l2 r1 r2
        (fun hm => h1 (List.mem_cons_of_mem _ hm))
        (fun hm => h2 (List.mem_cons_of_mem _ hm)) h
      exact ⟨by rw [ih.1], ih.2⟩

/-- No anchored match can start at or before the `?` that separates the
service URL from the fingerprint, as long as nothing up to there contains a
`#`:  the matched region would have to contain the `?`, which can live
neither in the hex captures nor (absent an earlier `#`) in the key capture. -/
theorem matchAt_across_qmark (u fpd hd tl : List Char)
    (hu : '#' ∉ u) (hfp : '#' ∉ fpd) (hh : '#' ∉ hd)
    (ht : tl = [] ∨ ∃ kd, tl = '#' :: kd ∧ '#' ∉ kd) :
    matchAt (u ++ '?' :: (fpd ++ '/' :: (hd ++ tl))) = none := by
  cases hsome : matchAt (u ++ '?' :: (fpd ++ '/' :: (hd ++ tl))) with
  | none => rfl
  | some m =>
      exfalso
      rcases m with ⟨FP, H, K⟩
      obtain ⟨hFPne, hHne, hFPhex, hHhex, hcase⟩ := matchAt_some_decomp hsome
      have hqnot : ('?' : Char) ∉ FP ++ '/' :: H := by
        intro hmem
        rcases List.mem_append.mp hmem with hmem | hmem
        · exact absurd (hFPhex _ hmem) (by decide)
        · rcases List.mem_cons.mp hmem with heq | hmem
          · exact absurd heq (by decide)
          · exact absurd (hHhex _ hmem) (by decide)
      rcases hcase with ⟨hk, hs⟩ | ⟨r, hk, hrne, hs⟩
      · have hq : ('?' : Char) ∈ u ++ '?' :: (fpd ++ '/' :: (hd ++ tl)) := by simp
        rw [hs] at hq
        exact hqnot hq
      · rcases ht with rfl | ⟨kd, rfl, hkd⟩
        · have hhash : ('#' : Char) ∈ u ++ '?' :: (fpd ++ '/' :: (hd ++ ([] : List Char))) := by
            rw [hs]; simp
          simp only [List.append_nil, List.mem_append, List.mem_cons] at hhash
          rcases hhash with h | h | h | h | h
          · exact hu h
          · exact absurd h (by decide)
          · exact hfp h
          · exact absurd h (by decide)
          · exact hh h
        · have hl : (u ++ '?' :: (fpd ++ '/' :: hd)) ++ '#' :: kd =
              (FP ++ '/' :: H) ++ '#' :: r := by
            simp only [List.append_assoc, List.cons_append, List.nil_append]
            simpa [List.append_assoc] using hs
          have hn1 : ('#' : Char) ∉ u ++ '?' :: (fpd ++ '/' :: hd) := by
            intro hmem
            simp only [List.mem_append, List.mem_cons] at hmem
            rcases hmem with h | h | h | h | h
            · exact hu h
            · exact absurd h (by decide)
            · exact hfp h
            · exact absurd h (by decide)
            · exact hh h
          have hn2 : ('#' : Char) ∉ FP ++ '/' :: H := by
            intro hmem
            rcases List.mem_append.mp hmem with hmem | hmem
            · exact absurd (hFPhex _ hmem) (by decide)
            · rcases List.mem_cons.mp hmem with heq | hmem
              · exact absurd heq (by decide)
              · exact absurd (hHhex _ hmem) (by decide)
          obtain ⟨heq1, -⟩ := append_marker_eq _ _ _ _ hn1 hn2 hl
          have : ('?' : Char) ∈ FP ++ '/' :: H := by rw [← heq1]; simp
          exact hqnot this

/-- Scanning from the left never finds a match before the fingerprint start. -/
theorem findFrom_qmark_skip (fpd hd tl : List Char)
    (hfp : '#' ∉ fpd) (hh : '#' ∉ hd)
    (ht : tl = [] ∨ ∃ kd, tl = '#' :: kd ∧ '#' ∉ kd) :
    ∀ u : List Char, '#' ∉ u →
      findFrom (u ++ '?' :: (fpd ++ '/' :: (hd ++ tl))) =
        findFrom (fpd ++ '/' :: (hd ++ tl))
  | [] => fun _ => by
      have h1 := matchAt_across_qmark [] fpd hd tl (by simp) hfp hh ht
      rw [List.nil_append] at h1 ⊢
      simp only [findFrom, h1]
  | c :: u => fun hcu => by
      have h1 := matchAt_across_qmark (c :: u) fpd hd tl hcu hfp hh ht
      rw [List.cons_append] at h1 ⊢
      simp only [findFrom, h1]
      exact findFrom_qmark_skip fpd hd tl hfp hh ht u
        (fun hm => hcu (List.mem_cons_of_mem _ hm))

/-- The match at the fingerprint start, no-key form. -/
theorem matchAt_build_nokey {fpd hd : List Char}
    (hfne : fpd ≠ []) (hhne : hd ≠ [])
    (hfhex : ∀ c ∈ fpd, isHexC c = true) (hhhex : ∀ c ∈ hd, isHexC c = true) :
    matchAt (fpd ++ '/' :: hd) = some (fpd, hd, none) := by
  have hrun : hexRunLen (fpd ++ '/' :: hd) = fpd.length := hexRunLen_stop _ hfhex (by decide)
  have hrun2 : hexRunLen hd = hd.length := hexRunLen_of_allHex hhhex
  simp only [matchAt, hrun]
  rw [if_neg (fun h0 => hfne (List.length_eq_zero.mp h0))]
  rw [List.drop_left]
  simp only [hrun2]
  rw [if_neg (fun h0 => hhne (List.length_eq_zero.mp h0))]
  rw [List.drop_length]
  simp only [List.take_left, List.take_length]

/-- The match at the fingerprint start, key form. -/
theorem matchAt_build_key {fpd hd kd : List Char}
    (hfne : fpd ≠ []) (hhne : hd ≠ []) (hkne : kd ≠ [])
    (hfhex : ∀ c ∈ fpd, isHexC c = true) (hhhex : ∀ c ∈ hd, isHexC c = true) :
    matchAt (fpd ++ '/' :: (hd ++ '#' :: kd)) = some (fpd, hd, some kd) := by
  have hrun : hexRunLen (fpd ++ '/' :: (hd ++ '#' :: kd)) = fpd.length :=
    hexRunLen_stop _ hfhex (by decide)
  have hrun2 : hexRunLen (hd ++ '#' :: kd) = hd.length := hexRunLen_stop _ hhhex (by decide)
  simp only [matchAt, hrun]
  rw [if_neg (fun h0 => hfne (List.length_eq_zero.mp h0))]
  rw [List.drop_left]
  simp only [hrun2]
  rw [if_neg (fun h0 => hhne (List.length_eq_zero.mp h0))]
  rw [List.drop_left]
  simp only [List.take_left]
  rw [if_neg (fun h0 => hkne (List.isEmpty_iff.mp h0))]

theorem findFrom_of_matchAt {l : List Char} {m : List Char × List Char × Option (List Char)}
    (hne : l ≠ []) (hm : matchAt l = some m) : findFrom l = some m := by
  cases l with
  | nil => exact absurd rfl hne
  | cons c cs => simp only [findFrom, hm]

/-- On `#`-free inputs a successful search is the end-anchored occurrence with
the maximal hex runs: the input ends with `fp ++ '/' :: hsh`, both captures
are non-empty hex runs, there is no key capture, and the character just before
the fingerprint (if any) is not a hex digit, so no occurrence further right is
skipped and none further left exists. -/
theorem findFrom_no_hash :
    ∀ (s : List Char), '#' ∉ s → ∀ fp hsh k, findFrom s = some (fp, hsh, k) →
      k = none ∧ ∃ u, s = u ++ (fp ++ '/' :: hsh) ∧ fp ≠ [] ∧ hsh ≠ [] ∧
        (∀ c ∈ fp, isHexC c = true) ∧ (∀ c ∈ hsh, isHexC c = true) ∧
        (u = [] ∨ ∃ u2 c, u = u2 ++ [c] ∧ isHexC c = false)
  | [] => by
      intro _ fp hsh k h
      exact absurd h (by simp [findFrom])
  | c :: cs => by
      intro hnh fp hsh k h
      cases hm : matchAt (c :: cs) with
      | some m =>
          simp only [findFrom, hm, Option.some.injEq] at h
          subst h
          obtain ⟨hfne, hhne, hfhex, hhhex, hcase⟩ := matchAt_some_decomp hm
          rcases hcase with ⟨hk, hs⟩ | ⟨r, hk, -, hs⟩
          · exact ⟨hk, [], by simpa using hs, hfne, hhne, hfhex, hhhex, Or.inl rfl⟩
          · exfalso
            apply hnh
            rw [hs]
            simp
      | none =>
          simp only [findFrom, hm] at h
          obtain ⟨hk, u, hsplit, hfne, hhne, hfhex, hhhex, hu⟩ :=
            findFrom_no_hash cs (fun hmem => hnh (List.mem_cons_of_mem _ hmem)) fp hsh k h
          refine ⟨hk, c :: u, by rw [List.cons_append, hsplit], hfne, hhne, hfhex, hhhex, ?_⟩
          right
          rcases hu with rfl | ⟨u2, d, rfl, hd⟩
          · refine ⟨[], c, rfl, ?_⟩
            by_contra hc
            rw [Bool.not_eq_false] at hc
            rw [List.nil_append] at hsplit
            subst hsplit
            have hok : matchAt ((c :: fp) ++ '/' :: hsh) = some (c :: fp, hsh, none) :=
              matchAt_build_nokey (by simp) hhne
                (fun d hd => by
                  rcases List.mem_cons.mp hd with rfl | hd
                  · exact hc
                  · exact hfhex d hd) hhhex
            rw [List.cons_append] at hok
            rw [hok] at hm
            exact Option.noConfusion hm
          · exact ⟨c :: u2, d, by rw [List.cons_append], hd⟩

theorem ctrXorFrom_involutive (key : List Nat) :
    ∀ (bs : List Nat) (i : Nat), ctrXorFrom key i (ctrXorFrom key i bs) = bs := by
  intro bs
  induction bs with
  | nil => intro i; rfl
  | cons b bs ih =>
      intro i
      simp only [ctrXorFrom, xor_xor_cancel, ih]

/-- The write path hashes exactly the bytes it frames as the record's content
field, and both the record's declared hash and the locator embed that digest:
whenever `WriteImpl` succeeds, `hashHex` is the hex of `sipHash128` of the
record's `content` (the stored bytes — the CTR ciphertext when a key was set,
the input otherwise), the returned paste carries the same digest, and the
locator is built from it. -/
theorem write_hash_addresses_stored_bytes
    (purl : String) (input : List Nat) (opt : List (WriteOptions → WriteOptions))
    (resp : CHResponse) (rec : InsertRecord) (paste : Paste)
    (h : WriteImpl purl input opt resp = .ok (rec, paste)) :
    rec.hashHex = hexEncode (sipHash128 rec.content) ∧
    paste.hash = sipHash128 rec.content ∧
    paste.content = rec.content ∧
    paste.url = buildURL (if purl = "" then DefaultPastilaURL else purl)
      [0xff, 0xff, 0xff, 0xff] (sipHash128 rec.content) paste.key ∧
    rec.content = (match (opt.foldl (fun o f => f o) {} : WriteOptions).key with
                   | some k => ctrXor k input
                   | none => input) := by
  simp only [WriteImpl] at h
  rcases henc : writeEncrypt ((opt.foldl (fun o f => f o) {} : WriteOptions)).key input
    with e | ⟨content, isEnc⟩ <;> rw [henc] at h
  · exact (Except.noConfusion h)
  · rcases hexec : executeRequestWithParams resp with ⟨e, b⟩ | res <;> rw [hexec] at h
    · exact (Except.noConfusion h)
    · simp only [Except.ok.injEq, Prod.mk.injEq] at h
      rcases h with ⟨hrec, hpaste⟩
      subst hrec
      subst hpaste
      refine ⟨rfl, rfl, rfl, rfl, ?_⟩
      rcases hk : ((opt.foldl (fun o f => f o) {} : WriteOptions)).key with _ | k <;>
        rw [hk] at henc <;> rw [hk]
      · simp only [writeEncrypt, Except.ok.injEq, Prod.mk.injEq] at henc
        exact henc.1.symm
      · simp only [writeEncrypt] at henc
        rcases hc : aesNewCipher k with e2 | w <;> rw [hc] at henc
        · exact (Except.noConfusion henc)
        · simp only [Except.ok.injEq, Prod.mk.injEq] at henc
          exact henc.1.symm

/-! ## Claim theorems -/

/-- Claim C2: for every byte sequence and every 16-byte key, the zero-IV
AES-CTR transform that `Service.Write` applies to encrypt, applied again with
the same key as `Service.Read` does to decrypt, returns exactly the original
content. -/
theorem ctr_zero_iv_roundtrip (key content : List Nat) (hkey : key.length = 16) :
    ctrXor key (ctrXor key content) = content :=
  ctrXorFrom_involutive key content 0

/-- Witness for C2 at a concrete 16-byte key and content. -/
theorem ctr_zero_iv_roundtrip_witness :
    ctrXor (List.replicate 16 1) (ctrXor (List.replicate 16 1) [72, 105, 33]) = [72, 105, 33] :=
  ctr_zero_iv_roundtrip (List.replicate 16 1) [72, 105, 33] (by decide)

/-- Claim C4: the spec says a save is triggered when the size is non-zero and
the size OR the modification time differs from the last snapshot; the code
(`execChangeHandlerIfFileChanged`, main.go line 293) instead returns early
when the size is unchanged OR the mtime is unchanged, so it triggers only when
BOTH differ.  At the failing input — same size 5, different mtimes — the code
does not save while the spec's predicate fires. -/
theorem watch_predicate_requires_both_changes :
    watchTriggers ⟨5, 1⟩ ⟨5, 2⟩ = false ∧ specChangeDetected ⟨5, 1⟩ ⟨5, 2⟩ = true := by
  decide

/-- Claim C6: reading a row whose encrypted flag is set (first body byte not
`'0'`) with an empty parsed key fails with `ErrKeyRequired` and produces no
paste. -/
theorem read_encrypted_empty_key_fails
    (url : String) (resp : CHResponse) (fpHex hHex : String) (flag : Char)
    (rest : List Char) (fp hsh : List Nat)
    (hparse : parseURL url = .ok (fpHex, hHex, []))
    (hq : resp.queryId ≠ "") (hst : resp.status = 200)
    (hbody : resp.body = flag :: rest) (hflag : flag ≠ '0')
    (hfp : hexDecode fpHex = .ok fp) (hh : hexDecode hHex = .ok hsh) :
    ReadImpl url resp = .error .keyRequired := by
  have hexec : executeRequestWithParams resp = .ok resp := by
    unfold executeRequestWithParams
    rw [if_neg hq, if_neg (by simp [hst])]
  unfold ReadImpl
  rw [hparse]
  dsimp only
  rw [hexec]
  dsimp only
  rw [hbody]
  dsimp only
  rw [hfp]
  dsimp only
  rw [hh]
  dsimp only
  rw [if_neg hflag]
  rfl

/-- Witness for C6: an encrypted row read through a keyless locator. -/
theorem read_encrypted_empty_key_fails_witness :
    ReadImpl "?aabbccdd/000102030405060708090a0b0c0d0e0f"
      ⟨"q", 200, ['1', '\t', 'z']⟩ = .error .keyRequired :=
  read_encrypted_empty_key_fails
    "?aabbccdd/000102030405060708090a0b0c0d0e0f" ⟨"q", 200, ['1', '\t', 'z']⟩
    "aabbccdd" "000102030405060708090a0b0c0d0e0f" '1' ['\t', 'z']
    [0xaa, 0xbb, 0xcc, 0xdd] [0, 1, 2, 3, 4, 5, 6, 7, 8, 9, 10, 11, 12, 13, 14, 15]
    (by decide) (by decide) rfl rfl (by decide) (by decide) (by decide)

/-- Claim C7: `Service.Read`'s parsing front classifies its failures: no regex
match fails with the `ErrInvalidUrl` sentinel carrying the input, and a
matched key segment that is not valid standard base64 fails with
`ErrInvalidKey` wrapping the base64 `CorruptInputError`. -/
theorem parse_failure_classification :
    (∀ url : String, findFrom url.data = none →
      parseURL url = .error (.invalidUrl url)) ∧
    (∀ (url : String) (fpcs hcs kcs : List Char) (e : Nat),
      findFrom url.data = some (fpcs, hcs, some kcs) →
      b64Decode (String.mk kcs) = .error e →
      parseURL url = .error (.invalidKeyBase64 e)) := by
  constructor
  · intro url hnone
    unfold parseURL
    rw [hnone]
  · intro url fpcs hcs kcs e hfind hdec
    unfold parseURL
    rw [hfind]
    simp only [Option.getD_some]
    rw [hdec]

/-- Witness for C7: the repository's own test inputs — a URL with no
fingerprint/hash pattern, and one whose key segment `invalid` has a
seven-character (truncated) base64 quantum. -/
theorem parse_failure_classification_witness :
    parseURL "https://some.url/invalid/path" =
      .error (.invalidUrl "https://some.url/invalid/path") ∧
    parseURL "https://pastila.nl/?ffffffff/52662368cc45b2ad0e9a47faa8582369#invalid" =
      .error (.invalidKeyBase64 4) := by
  constructor
  · exact parse_failure_classification.1 "https://some.url/invalid/path" (by decide)
  · exact parse_failure_classification.2
      "https://pastila.nl/?ffffffff/52662368cc45b2ad0e9a47faa8582369#invalid"
      "ffffffff".data "52662368cc45b2ad0e9a47faa8582369".data "invalid".data 4
      (by decide) (by decide)

/-- Claim C8: whenever the backend response lacks the `X-ClickHouse-Query-Id`
header, `executeRequestWithParams` fails with the `ErrInvalidUrl`-wrapped
"missing query id" error after closing the body, whatever the status code. -/
theorem exec_missing_query_id_fails
    (resp : CHResponse) (h : resp.queryId = "") :
    executeRequestWithParams resp = .error (.invalidUrlMissingQueryId, true) := by
  unfold executeRequestWithParams
  rw [if_pos h]

/-- Witness for C8 at a response whose HTTP status is success. -/
theorem exec_missing_query_id_fails_witness :
    executeRequestWithParams ⟨"", 200, ['o', 'k']⟩ =
      .error (.invalidUrlMissingQueryId, true) :=
  exec_missing_query_id_fails ⟨"", 200, ['o', 'k']⟩ rfl

/-- Claim C9: a supplied non-nil key whose length is not 16, 24 or 32 makes
`Service.Write` fail at `aes.NewCipher` with `ErrInvalidKey` wrapping the
`KeySizeError` — before any request is issued (the returned value carries no
record) — and makes `Service.Read` fail the same way on an encrypted row. -/
theorem invalid_key_size_fails :
    (∀ (purl : String) (input k : List Nat) (resp : CHResponse),
      k.length ≠ 16 → k.length ≠ 24 → k.length ≠ 32 →
      WriteImpl purl input [WithKey (some k)] resp =
        .error (.invalidKeyCipher (.keySize k.length))) ∧
    (∀ (url : String) (resp : CHResponse) (fpHex hHex : String) (flag : Char)
      (rest : List Char) (fp hsh k : List Nat),
      parseURL url = .ok (fpHex, hHex, k) → k ≠ [] →
      k.length ≠ 16 → k.length ≠ 24 → k.length ≠ 32 →
      resp.queryId ≠ "" → resp.status = 200 →
      resp.body = flag :: rest → flag ≠ '0' →
      hexDecode fpHex = .ok fp → hexDecode hHex = .ok hsh →
      ReadImpl url resp = .error (.invalidKeyCipher (.keySize k.length))) := by
  constructor
  · intro purl input k resp h16 h24 h32
    have hcipher : aesNewCipher k = .error (.keySize k.length) := by
      unfold aesNewCipher
      rw [if_neg]
      push_neg
      exact ⟨h16, h24, h32⟩
    simp [WriteImpl, writeEncrypt, WithKey, hcipher]
  · intro url resp fpHex hHex flag rest fp hsh k hparse hne h16 h24 h32 hq hst hbody hflag hfp hh
    have hexec : executeRequestWithParams resp = .ok resp := by
      unfold executeRequestWithParams
      rw [if_neg hq, if_neg (by simp [hst])]
    have hcipher : aesNewCipher k = .error (.keySize k.length) := by
      unfold aesNewCipher
      rw [if_neg]
      push_neg
      exact ⟨h16, h24, h32⟩
    unfold ReadImpl
    rw [hparse]
    dsimp only
    rw [hexec]
    dsimp only
    rw [hbody]
    dsimp only
    rw [hfp]
    dsimp only
    rw [hh]
    dsimp only
    rw [if_neg hflag, if_neg (fun h0 => hne (List.length_eq_zero.mp h0))]
    rw [hcipher]

/-- Witness for C9: a five-byte key rejected by `Service.Write` directly and
by `Service.Read` on an encrypted row (`AQIDBAU=` is base64 of those five
bytes). -/
theorem invalid_key_size_fails_witness :
    WriteImpl "p" [1, 2, 3] [WithKey (some [1, 2, 3, 4, 5])] ⟨"q", 200, []⟩ =
      .error (.invalidKeyCipher (.keySize 5)) ∧
    ReadImpl "?aabbccdd/000102030405060708090a0b0c0d0e0f#AQIDBAU=" ⟨"q", 200, ['1', '\t', 'z']⟩ =
      .error (.invalidKeyCipher (.keySize 5)) := by
  constructor
  · exact invalid_key_size_fails.1 "p" [1, 2, 3] [1, 2, 3, 4, 5] ⟨"q", 200, []⟩
      (by decide) (by decide) (by decide)
  · exact invalid_key_size_fails.2 "?aabbccdd/000102030405060708090a0b0c0d0e0f#AQIDBAU="
      ⟨"q", 200, ['1', '\t', 'z']⟩ "aabbccdd" "000102030405060708090a0b0c0d0e0f" '1' ['\t', 'z']
      [0xaa, 0xbb, 0xcc, 0xdd] [0, 1, 2, 3, 4, 5, 6, 7, 8, 9, 10, 11, 12, 13, 14, 15]
      [1, 2, 3, 4, 5]
      (by decide) (by decide) (by decide) (by decide) (by decide) (by decide) (by decide)
      rfl (by decide) (by decide) (by decide)

/-- Claim C10: applying `WithPreviousPaste` with a nil paste changes no option
field, so a `Write` with `WithKey k` followed by `WithPreviousPaste nil`
produces exactly the same record and paste (hence locator) as `WithKey k`
alone. -/
theorem with_previous_paste_nil_is_noop :
    (∀ o : WriteOptions, WithPreviousPaste none o = o) ∧
    (∀ (purl : String) (input : List Nat) (k : Option (List Nat)) (resp : CHResponse),
      WriteImpl purl input [WithKey k, WithPreviousPaste none] resp =
        WriteImpl purl input [WithKey k] resp) :=
  ⟨fun _ => rfl, fun _ _ _ _ => rfl⟩

/-- Counterexample to claim C3 as stated (parse∘build for *every* service
URL): with the service URL `aa/bb#`, Go's leftmost-first search matches from
position 0 — the key capture swallows `?ffffffff/…` — and parsing fails with
`ErrInvalidKey` (offset 0: `?` is not a base64 character) instead of
recovering the fingerprint/hash/key that were built in.  And with a non-nil
*empty* key the built locator ends in a bare `#`, which the pattern cannot
match at all, so parsing fails with `ErrInvalidUrl`. -/
theorem build_parse_roundtrip_cex :
    parseURL (buildURL "aa/bb#" [255, 255, 255, 255]
        [0, 1, 2, 3, 4, 5, 6, 7, 8, 9, 10, 11, 12, 13, 14, 15]
        (some (List.replicate 16 1))) = .error (.invalidKeyBase64 0) ∧
    parseURL (buildURL "x" [255, 255, 255, 255]
        [0, 1, 2, 3, 4, 5, 6, 7, 8, 9, 10, 11, 12, 13, 14, 15] (some [])) =
      .error (.invalidUrl "x?ffffffff/000102030405060708090a0b0c0d0e0f#") := by
  constructor
  · decide
  · decide

/-- Claim C3 as amended: for every service URL containing no `#`, and a key
that is absent or non-empty (`Service.Write` can never emit an empty-but-
present key, since `aes.NewCipher` rejects it), parsing the locator that
`Service.Write` builds recovers exactly the built fingerprint, hash and key:
the hex captures are the encodings of the original bytes (and hex-decode back
to them) and the key bytes decode back unchanged. -/
theorem build_parse_roundtrip
    (purl : String) (fp hsh : List Nat) (key : Option (List Nat))
    (hpu : '#' ∉ purl.data)
    (hfplen : fp.length = 4) (hhlen : hsh.length = 16)
    (hfpb : ∀ b ∈ fp, b < 256) (hhb : ∀ b ∈ hsh, b < 256)
    (hkey : ∀ k, key = some k → k ≠ [] ∧ ∀ b ∈ k, b < 256) :
    parseURL (buildURL purl fp hsh key) =
      .ok (hexEncode fp, hexEncode hsh, key.getD []) ∧
    hexDecode (hexEncode fp) = .ok fp ∧ hexDecode (hexEncode hsh) = .ok hsh := by
  have hfpne : fp ≠ [] := by intro h0; rw [h0] at hfplen; exact absurd hfplen (by decide)
  have hhne : hsh ≠ [] := by intro h0; rw [h0] at hhlen; exact absurd hhlen (by decide)
  have hfd := hexEncode_ne_nil hfpne
  have hhd := hexEncode_ne_nil hhne
  have hfnohash : '#' ∉ (hexEncode fp).data :=
    fun hm => absurd (hexEncode_allHex fp '#' hm) (by decide)
  have hhnohash : '#' ∉ (hexEncode hsh).data :=
    fun hm => absurd (hexEncode_allHex hsh '#' hm) (by decide)
  refine ⟨?_, hexDecode_hexEncode fp hfpb, hexDecode_hexEncode hsh hhb⟩
  cases key with
  | none =>
      have hdata : (buildURL purl fp hsh none).data =
          purl.data ++ '?' :: ((hexEncode fp).data ++ '/' :: (hexEncode hsh).data) := by
        simp [buildURL, String.data_append]
      have hskip := findFrom_qmark_skip (hexEncode fp).data (hexEncode hsh).data []
        hfnohash hhnohash (Or.inl rfl) purl.data hpu
      rw [List.append_nil] at hskip
      have hcore := matchAt_build_nokey hfd hhd (hexEncode_allHex fp) (hexEncode_allHex hsh)
      have hfind : findFrom (buildURL purl fp hsh none).data =
          some ((hexEncode fp).data, (hexEncode hsh).data, none) := by
        rw [hdata, hskip]
        exact findFrom_of_matchAt (by simp [hfd, List.append_eq_nil]) hcore
      unfold parseURL
      rw [hfind]
      rfl
  | some k =>
      obtain ⟨hkne, hkb⟩ := hkey k rfl
      have hkdne : b64EncodeList k ≠ [] := b64EncodeList_ne_nil k hkne
      have hknohash : '#' ∉ b64EncodeList k :=
        fun hm => b64EncodeList_no_hash k '#' hm rfl
      have hdata : (buildURL purl fp hsh (some k)).data =
          purl.data ++ '?' :: ((hexEncode fp).data ++ '/' ::
            ((hexEncode hsh).data ++ '#' :: b64EncodeList k)) := by
        simp [buildURL, b64Encode, String.data_append]
      have hskip := findFrom_qmark_skip (hexEncode fp).data (hexEncode hsh).data
        ('#' :: b64EncodeList k) hfnohash hhnohash
        (Or.inr ⟨b64EncodeList k, rfl, hknohash⟩) purl.data hpu
      have hcore := matchAt_build_key hfd hhd hkdne
        (hexEncode_allHex fp) (hexEncode_allHex hsh)
      have hfind : findFrom (buildURL purl fp hsh (some k)).data =
          some ((hexEncode fp).data, (hexEncode hsh).data, some (b64EncodeList k)) := by
        rw [hdata, hskip]
        exact findFrom_of_matchAt (by simp [hfd, List.append_eq_nil]) hcore
      unfold parseURL
      rw [hfind]
      have hdec : b64Decode (String.mk (b64EncodeList k)) = .ok k := b64Decode_b64Encode k hkb
      simp only [Option.getD_some, hdec]

/-- Witness for the amended C3 at a concrete URL, fingerprint, hash and
16-byte key. -/
theorem build_parse_roundtrip_witness :
    parseURL (buildURL "http://x/" [255, 255, 255, 255]
        [0, 1, 2, 3, 4, 5, 6, 7, 8, 9, 10, 11, 12, 13, 14, 15]
        (some (List.replicate 16 1))) =
      .ok (hexEncode [255, 255, 255, 255],
           hexEncode [0, 1, 2, 3, 4, 5, 6, 7, 8, 9, 10, 11, 12, 13, 14, 15],
           List.replicate 16 1) ∧
    hexDecode (hexEncode [255, 255, 255, 255]) = .ok [255, 255, 255, 255] ∧
    hexDecode (hexEncode [0, 1, 2, 3, 4, 5, 6, 7, 8, 9, 10, 11, 12, 13, 14, 15]) =
      .ok [0, 1, 2, 3, 4, 5, 6, 7, 8, 9, 10, 11, 12, 13, 14, 15] :=
  build_parse_roundtrip "http://x/" [255, 255, 255, 255]
    [0, 1, 2, 3, 4, 5, 6, 7, 8, 9, 10, 11, 12, 13, 14, 15]
    (some (List.replicate 16 1)) (by decide) (by decide) (by decide)
    (by decide) (by decide)
    (fun k hk => by cases hk; exact ⟨by decide, by decide⟩)

/-- Counterexample to claim C5 as stated: in `aa/bb#cc/ddddd` the trailing
pattern occurrence `cc/ddddd` does not win — Go's leftmost-first search
matches from position 0, returning fingerprint `aa` and hash `bb` and
base64-decoding `cc/ddddd` as the key — so the returned captures come from the
earliest start, not the last occurrence. -/
theorem parse_leftmost_cex :
    parseURL "aa/bb#cc/ddddd" = .ok ("aa", "bb", [113, 207, 221, 117, 215, 93]) ∧
    ("aa" : String) ≠ "cc" := by
  constructor
  · decide
  · decide

/-- Claim C5 as amended: the match is end-anchored, and among matches ending
at the end of the input Go picks the earliest start; an earlier `#` therefore
lets the key capture swallow a later occurrence.  When the input contains no
`#` the claim's reading holds: a successful parse has no key, the input ends
with `fp ++ '/' ++ hash` where the hash capture is the maximal trailing hex
run and the fingerprint capture is the maximal hex run before the preceding
slash (the character before it, if any, is not hex) — i.e. the last
occurrence wins. -/
theorem parse_no_hash_last_occurrence
    (s fp hsh : String) (key : List Nat)
    (hnh : '#' ∉ s.data)
    (h : parseURL s = .ok (fp, hsh, key)) :
    key = [] ∧ ∃ u, s.data = u ++ (fp.data ++ '/' :: hsh.data) ∧
      fp.data ≠ [] ∧ hsh.data ≠ [] ∧
      (∀ c ∈ fp.data, isHexC c = true) ∧ (∀ c ∈ hsh.data, isHexC c = true) ∧
      (u = [] ∨ ∃ u2 c, u = u2 ++ [c] ∧ isHexC c = false) := by
  unfold parseURL at h
  cases hf : findFrom s.data with
  | none => rw [hf] at h; exact absurd h (by simp)
  | some m =>
      rcases m with ⟨fpcs, hcs, keyOpt⟩
      rw [hf] at h
      obtain ⟨hknone, u, hsplit, hfne, hhne, hfhex, hhhex, hu⟩ :=
        findFrom_no_hash s.data hnh fpcs hcs keyOpt hf
      subst hknone
      simp only [Option.getD_none] at h
      have hempty : b64Decode (String.mk []) = .ok [] := rfl
      rw [hempty] at h
      simp only [Except.ok.injEq, Prod.mk.injEq] at h
      obtain ⟨hfp, hhsh, hkey⟩ := h
      subst hfp
      subst hhsh
      subst hkey
      exact ⟨rfl, u, hsplit, hfne, hhne, hfhex, hhhex, hu⟩

/-- Witness for the amended C5: `z?aa/bb` parses to the trailing occurrence
`aa`/`bb`, with the non-hex `?` right before the fingerprint. -/
theorem parse_no_hash_last_occurrence_witness :
    ([] : List Nat) = [] ∧ ∃ u, ("z?aa/bb" : String).data =
        u ++ (("aa" : String).data ++ '/' :: ("bb" : String).data) ∧
      ("aa" : String).data ≠ [] ∧ ("bb" : String).data ≠ [] ∧
      (∀ c ∈ ("aa" : String).data, isHexC c = true) ∧
      (∀ c ∈ ("bb" : String).data, isHexC c = true) ∧
      (u = [] ∨ ∃ u2 c, u = u2 ++ [c] ∧ isHexC c = false) :=
  parse_no_hash_last_occurrence "z?aa/bb" "aa" "bb" [] (by decide) (by decide)

end Pastila
